import Mathlib

/-!
Verification of the Lighthouse Baseline-readiness audit core modules.

This file is a shallow embedding, in Lean 4, of the modules of the repository
that the specification covers:

* the circuit breaker and batched status resolver of
  `core/computed/baseline/webstatus-client.js`,
* the UA-distribution factors of `core/computed/baseline/targets.js`,
* the scoring engine of `core/computed/baseline/score.js`
  (the current version, the one imported by `core/audits/baseline-readiness.js`
  with the five-argument `calculateScore` signature and the `targets.js` import;
  the repository also still carries a stale earlier copy of `score.js` with a
  four-argument `calculateScore`, which no module imports),
* the budget evaluator of `core/computed/baseline/budgets.js`,
* the diff engine of `build/plugins/baseline-diff.mjs`.

Modelling conventions:

* JavaScript numbers are modelled as exact rationals; the constants involved
  (0.5, 1.5, 0.75, ...) are exactly representable as binary64 floats and all
  claims checked here concern exact comparisons and clamps, so no
  floating-point rounding discrepancy affects any statement proved below.
* JavaScript `Map` objects are modelled as association lists with the
  insertion-order `set` semantics of `Map.prototype.set` (`setEntry` below).
* Asynchronous batch processing (`Promise.all` under a concurrency window of
  three) is linearized in batch order; all merged maps are keyed by feature
  identifier, so the properties proved here are independent of completion
  order, and the sequential model is the linearization used throughout.
* `Date.now()` is an explicit `now : Nat` argument (milliseconds).
* Display-only row fields (`low_date`/`high_date` after locale formatting,
  `where`, `weightReason`) are not modelled: they are produced by
  locale-dependent formatting and location grouping that no checked property
  mentions, and they do not feed back into any score, sort key, budget or
  diff computation.
-/

/-- The four Baseline statuses a `StatusRecord` can carry
(`BaselineStatus.status` in `webstatus-client.js`). -/
inductive BStatus where
  | limited
  | newly
  | widely
  | unknown
deriving DecidableEq, Repr

/-- A resolved status record (`BaselineStatus` in `webstatus-client.js`):
a status plus the optional raw low/high dates carried along with it. -/
structure StatusRecord where
  status : BStatus
  low_date : Option String := none
  high_date : Option String := none
deriving DecidableEq, Repr

/-- JavaScript `Math.round`: round half toward positive infinity. -/
def jsRound (q : ℚ) : ℤ := ⌊q + 1/2⌋

/-- ASCII lowercasing, modelling `String.prototype.toLowerCase` on the
ASCII identifiers this codebase manipulates (character-list form of
`String.map Char.toLower`). -/
def strLower (s : String) : String := String.mk (s.toList.map Char.toLower)

/-- Substring test: `strIncludes s sub` models `s.includes(sub)`. -/
def strIncludes (s sub : String) : Bool := decide (sub.toList <:+: s.toList)

/-! ## Circuit breaker (`webstatus-client.js`)

State machine over `{failureCount, lastFailureTime, state}` with
`CIRCUIT_BREAKER_THRESHOLD = 5` and `CIRCUIT_BREAKER_TIMEOUT = 30000` ms.
-/

/-- The three circuit-breaker states; `open_` models the JS string
`'open'` (`open` is a Lean keyword). -/
inductive CBState where
  | closed
  | open_
  | halfOpen
deriving DecidableEq, Repr

/-- `circuitBreakerState` in `webstatus-client.js`. -/
structure Breaker where
  failureCount : ℕ
  lastFailureTime : ℕ
  state : CBState
deriving DecidableEq, Repr

/-- Threshold of consecutive failures before the breaker opens. -/
def CIRCUIT_BREAKER_THRESHOLD : ℕ := 5

/-- Cool-down in milliseconds before an open breaker allows a trial call. -/
def CIRCUIT_BREAKER_TIMEOUT : ℕ := 30000

/-- The fresh breaker a process starts with. -/
def initialBreaker : Breaker := ⟨0, 0, CBState.closed⟩

/-- `shouldAllowRequest()`: returns whether a request may proceed and the
(possibly mutated) breaker state — an open breaker past its cool-down
flips to half-open as a side effect of the check. -/
def shouldAllowRequest (now : ℕ) (b : Breaker) : Bool × Breaker :=
  match b.state with
  | CBState.closed => (true, b)
  | CBState.open_ =>
      if CIRCUIT_BREAKER_TIMEOUT < now - b.lastFailureTime then
        (true, { b with state := CBState.halfOpen })
      else
        (false, b)
  | CBState.halfOpen => (true, b)

/-- `recordSuccess()`: reset the failure count and close the breaker. -/
def recordSuccess (b : Breaker) : Breaker :=
  { b with failureCount := 0, state := CBState.closed }

/-- `recordFailure()`: bump the failure count, stamp the failure time, and
open the breaker once the threshold is reached. -/
def recordFailure (now : ℕ) (b : Breaker) : Breaker :=
  let fc := b.failureCount + 1
  { failureCount := fc
    lastFailureTime := now
    state := if CIRCUIT_BREAKER_THRESHOLD ≤ fc then CBState.open_ else b.state }

/-- A sequence of consecutive `recordFailure` calls at the given timestamps. -/
def applyFailures (b : Breaker) (ts : List ℕ) : Breaker :=
  ts.foldl (fun st t => recordFailure t st) b

/-- The three operations a client of the breaker can perform. -/
inductive CBOp where
  | allow (now : ℕ)
  | success
  | failure (now : ℕ)

/-- One breaker operation (`allow` keeps the state returned by
`shouldAllowRequest`, discarding the boolean). -/
def stepOp (b : Breaker) : CBOp → Breaker
  | CBOp.allow now => (shouldAllowRequest now b).2
  | CBOp.success => recordSuccess b
  | CBOp.failure now => recordFailure now b

/-- Run a sequence of breaker operations from the fresh initial state. -/
def runOps (ops : List CBOp) : Breaker :=
  ops.foldl stepOp initialBreaker

lemma applyFailures_inv (ts : List ℕ) :
    ∀ b : Breaker,
      b.state = (if 5 ≤ b.failureCount then CBState.open_ else CBState.closed) →
      (applyFailures b ts).failureCount = b.failureCount + ts.length ∧
      (applyFailures b ts).state =
        (if 5 ≤ b.failureCount + ts.length then CBState.open_ else CBState.closed) := by
  induction ts with
  | nil => intro b hb; simpa [applyFailures] using hb
  | cons t ts ih =>
      intro b hb
      have hstep :
          (recordFailure t b).state =
            (if 5 ≤ (recordFailure t b).failureCount then CBState.open_ else CBState.closed) := by
        simp only [recordFailure, CIRCUIT_BREAKER_THRESHOLD]
        by_cases h5 : 5 ≤ b.failureCount + 1
        · simp [h5]
        · have hlt : ¬ 5 ≤ b.failureCount := by omega
          simp [h5, hb, hlt]
      have hc : (recordFailure t b).failureCount = b.failureCount + 1 := rfl
      have h2 := ih (recordFailure t b) hstep
      simp only [applyFailures, List.foldl_cons, List.length_cons] at h2 ⊢
      refine ⟨?_, ?_⟩
      · rw [h2.1, hc]; omega
      · rw [h2.2, hc]
        have harith : b.failureCount + 1 + ts.length = b.failureCount + (ts.length + 1) := by
          omega
        rw [harith]

lemma runOps_failure_inv (ops : List CBOp) :
    (runOps ops).state ≠ CBState.closed → 5 ≤ (runOps ops).failureCount := by
  have main : ∀ (ops : List CBOp) (b : Breaker),
      (b.state ≠ CBState.closed → 5 ≤ b.failureCount) →
      ((ops.foldl stepOp b).state ≠ CBState.closed → 5 ≤ (ops.foldl stepOp b).failureCount) := by
    intro ops
    induction ops with
    | nil => intro b hb; simpa using hb
    | cons op ops ih =>
        intro b hb
        refine ih (stepOp b op) ?_
        cases op with
        | allow now =>
            intro h
            cases hs : b.state with
            | closed =>
                simp [stepOp, shouldAllowRequest, hs] at h
            | open_ =>
                have h5 := hb (by simp [hs])
                simp only [stepOp, shouldAllowRequest, hs]
                split
                · exact h5
                · exact h5
            | halfOpen =>
                have h5 := hb (by simp [hs])
                simpa [stepOp, shouldAllowRequest, hs] using h5
        | success => intro h; simp [stepOp, recordSuccess] at h
        | failure now =>
            intro h
            simp only [stepOp, recordFailure, CIRCUIT_BREAKER_THRESHOLD] at h ⊢
            by_cases h5 : 5 ≤ b.failureCount + 1
            · exact h5
            · simp only [if_neg h5] at h
              have := hb h
              omega
  intro h
  exact main ops initialBreaker (by intro h; simp [initialBreaker] at h) h

/-- Claim C2 (counterexample): the claim as stated is false on two counts.
After five failures at time 0 the breaker is Open; calling `shouldAllowRequest`
at 30001 ms and again at 30002 ms — with no intervening `recordSuccess` or
`recordFailure` — returns `true` BOTH times (the claim says true exactly once),
and calling `recordSuccess` while Open moves the breaker directly to Closed,
a transition the claim says is unreachable. -/
theorem circuit_breaker_claim_counterexample :
    (applyFailures initialBreaker [0, 0, 0, 0, 0]).state = CBState.open_ ∧
    (shouldAllowRequest 30001 (applyFailures initialBreaker [0, 0, 0, 0, 0])).1 = true ∧
    (shouldAllowRequest 30002
        (shouldAllowRequest 30001 (applyFailures initialBreaker [0, 0, 0, 0, 0])).2).1 = true ∧
    (recordSuccess (applyFailures initialBreaker [0, 0, 0, 0, 0])).state = CBState.closed := by
  decide

/-- Claim C2 (amended): starting Closed with failureCount 0, the breaker moves
to Open exactly on the 5th consecutive `recordFailure` and not before; while
Open, `shouldAllowRequest` returns false until more than the 30-second
cool-down has elapsed since the last failure, after which it returns true and
enters HalfOpen (and every further call while HalfOpen also returns true);
from a reachable HalfOpen state `recordFailure` returns the breaker to Open,
and `recordSuccess` — from any state, including directly from Open — returns
it to Closed with failureCount 0; no transition other than
Closed→{Closed,Open}, Open→{Open,HalfOpen,Closed}, HalfOpen→{HalfOpen,Open,Closed}
is possible (in particular Closed never jumps to HalfOpen). -/
theorem circuit_breaker_amended :
    (∀ ts : List ℕ,
       (applyFailures initialBreaker ts).failureCount = ts.length ∧
       (applyFailures initialBreaker ts).state =
         (if 5 ≤ ts.length then CBState.open_ else CBState.closed)) ∧
    (∀ (b : Breaker) (now : ℕ), b.state = CBState.open_ →
       ((shouldAllowRequest now b).1 = true ↔ 30000 < now - b.lastFailureTime)) ∧
    (∀ (b : Breaker) (now : ℕ), b.state = CBState.open_ →
       30000 < now - b.lastFailureTime →
       shouldAllowRequest now b = (true, ⟨b.failureCount, b.lastFailureTime, CBState.halfOpen⟩)) ∧
    (∀ (b : Breaker) (now : ℕ), b.state = CBState.halfOpen →
       shouldAllowRequest now b = (true, b)) ∧
    (∀ b : Breaker, recordSuccess b = ⟨0, b.lastFailureTime, CBState.closed⟩) ∧
    (∀ (ops : List CBOp) (now : ℕ), (runOps ops).state = CBState.halfOpen →
       (recordFailure now (runOps ops)).state = CBState.open_) ∧
    (∀ (b : Breaker) (op : CBOp),
       (b.state = CBState.closed →
          (stepOp b op).state = CBState.closed ∨ (stepOp b op).state = CBState.open_) ∧
       (b.state = CBState.open_ →
          (stepOp b op).state = CBState.open_ ∨ (stepOp b op).state = CBState.halfOpen ∨
          (stepOp b op).state = CBState.closed) ∧
       (b.state = CBState.halfOpen →
          (stepOp b op).state = CBState.halfOpen ∨ (stepOp b op).state = CBState.open_ ∨
          (stepOp b op).state = CBState.closed)) := by
  refine ⟨?_, ?_, ?_, ?_, ?_, ?_, ?_⟩
  · intro ts
    have h := applyFailures_inv ts initialBreaker (by simp [initialBreaker])
    simpa [initialBreaker] using h
  · intro b now hb
    simp only [shouldAllowRequest, hb, CIRCUIT_BREAKER_TIMEOUT]
    split
    case isTrue h => simpa using h
    case isFalse h => simpa using h
  · intro b now hb hlt
    simp [shouldAllowRequest, hb, CIRCUIT_BREAKER_TIMEOUT, hlt]
  · intro b now hb
    simp [shouldAllowRequest, hb]
  · intro b
    rfl
  · intro ops now hs
    have h5 := runOps_failure_inv ops (by rw [hs]; simp)
    have h6 : 5 ≤ (runOps ops).failureCount + 1 := by omega
    simp [recordFailure, CIRCUIT_BREAKER_THRESHOLD, h6]
  · intro b op
    refine ⟨?_, ?_, ?_⟩ <;> intro hs <;> cases op <;>
      simp only [stepOp, shouldAllowRequest, recordSuccess, recordFailure,
        CIRCUIT_BREAKER_THRESHOLD, hs] <;>
      first
        | (split <;> simp [hs])
        | simp [hs]

/-- Witness for the amended C2 theorem: an Open breaker whose last failure was
at time 0, probed at 30001 ms, allows the call and enters HalfOpen. -/
theorem circuit_breaker_amended_witness :
    shouldAllowRequest 30001 ⟨5, 0, CBState.open_⟩ = (true, ⟨5, 0, CBState.halfOpen⟩) :=
  circuit_breaker_amended.2.2.1 ⟨5, 0, CBState.open_⟩ 30001 rfl (by decide)

/-! ## UA-distribution support factors (`targets.js`) -/

/-- A UA distribution (`UADistribution` in `targets.js`): browser-family
shares. `uaSupportFactor` reads absent keys as 0 (`|| 0` in the source),
which the total fields of this structure with default 0 make implicit. -/
structure UADist where
  safari : ℚ := 0
  chrome : ℚ := 0
  firefox : ℚ := 0
  edge : ℚ := 0
deriving DecidableEq, Repr

/-- The `supportLevels` table of `uaSupportFactor`. The source also applies
`|| 0.7` as a default for unlisted statuses; with the four-valued status
type every status is listed, so the default never fires. -/
def supportLevel : BStatus → ℚ
  | BStatus.widely => 1
  | BStatus.newly => 0.8
  | BStatus.limited => 0.5
  | BStatus.unknown => 0.7

/-- `uaSupportFactor(status, uaDistribution)` from `targets.js`: Limited is
rewarded by the combined Chrome+Edge share, Newly is penalized by the Safari
share, everything clamped to `[0.5, 1.0]`. -/
def uaSupportFactor (status : BStatus) (d : UADist) : ℚ :=
  let baseFactor := supportLevel status
  if status = BStatus.limited then
    let chromeEdgeShare := d.chrome + d.edge
    max 0.5 (min 1 (0.5 + chromeEdgeShare * 0.5))
  else if status = BStatus.newly then
    max 0.5 (min 1 (baseFactor - d.safari * 0.2))
  else
    max 0.5 (min 1 baseFactor)

/-- Claim C6: `uaSupportFactor` is monotone — a larger combined Chrome+Edge
share never decreases the Limited factor, a larger Safari share never
increases the Newly factor — and for every status and every UA distribution
the factor lies in the closed interval `[0.5, 1.0]`. -/
theorem uaSupportFactor_monotone_and_bounded :
    (∀ d d' : UADist, d.chrome + d.edge ≤ d'.chrome + d'.edge →
       uaSupportFactor BStatus.limited d ≤ uaSupportFactor BStatus.limited d') ∧
    (∀ d d' : UADist, d.safari ≤ d'.safari →
       uaSupportFactor BStatus.newly d' ≤ uaSupportFactor BStatus.newly d) ∧
    (∀ (st : BStatus) (d : UADist),
       (1 : ℚ)/2 ≤ uaSupportFactor st d ∧ uaSupportFactor st d ≤ 1) := by
  refine ⟨?_, ?_, ?_⟩
  · intro d d' h
    simp only [uaSupportFactor]
    exact max_le_max le_rfl (min_le_min le_rfl (by linarith))
  · intro d d' h
    simp only [uaSupportFactor]
    exact max_le_max le_rfl (min_le_min le_rfl (by simp only [supportLevel]; linarith))
  · intro st d
    cases st <;>
      exact ⟨le_trans (by norm_num) (le_max_left _ _),
        max_le (by norm_num) (min_le_left _ _)⟩

/-- Witness for C6: on concrete distributions, moving Chromium-family share
from 0.5 to 1.0 does not decrease the Limited factor. -/
theorem uaSupportFactor_monotone_witness :
    uaSupportFactor BStatus.limited ⟨0.25, 0.25, 0.25, 0.25⟩ ≤
      uaSupportFactor BStatus.limited ⟨0, 0.9, 0, 0.1⟩ :=
  uaSupportFactor_monotone_and_bounded.1 ⟨0.25, 0.25, 0.25, 0.25⟩ ⟨0, 0.9, 0, 0.1⟩
    (by norm_num)

/-! ## Association lists modelling JavaScript `Map` objects -/

/-- `m.get(k)` on a JS `Map` modelled as an insertion-ordered entry list. -/
def getEntry {α : Type} (m : List (String × α)) (k : String) : Option α :=
  (m.find? (fun p => p.1 == k)).map Prod.snd

/-- `m.set(k, v)` on a JS `Map`: replace the entry in place when the key is
already present (a `Map` holds each key once, so replacing the first
occurrence is replacing the only one), append a fresh entry otherwise. -/
def setEntry {α : Type} : List (String × α) → String → α → List (String × α)
  | [], k, v => [(k, v)]
  | p :: m, k, v => if p.1 == k then (k, v) :: m else p :: setEntry m k v

lemma getEntry_setEntry_self {α : Type} (m : List (String × α)) (k : String) (v : α) :
    getEntry (setEntry m k v) k = some v := by
  induction m with
  | nil => simp [getEntry, setEntry]
  | cons p m ih =>
      by_cases hp : p.1 = k
      · simp [getEntry, setEntry, hp]
      · have hp2 : (p.1 == k) = false := by simpa using hp
        simpa [getEntry, setEntry, hp2, List.find?] using ih

lemma getEntry_setEntry_ne {α : Type} (m : List (String × α)) (k k' : String) (v : α)
    (hk : k' ≠ k) : getEntry (setEntry m k v) k' = getEntry m k' := by
  have hkk : (k == k') = false := by simpa using fun h => hk h.symm
  induction m with
  | nil => simp [getEntry, setEntry, hkk]
  | cons p m ih =>
      by_cases hp : p.1 = k
      · have hp2 : (p.1 == k') = false := by simpa [hp] using fun h => hk h.symm
        simp [getEntry, setEntry, hp, hkk, hp2, List.find?]
      · have hp2 : (p.1 == k) = false := by simpa using hp
        by_cases hq : p.1 = k'
        · have hq2 : (k' == k) = false := by simpa using hk
          simp [getEntry, setEntry, hq, hq2, List.find?]
        · have hq2 : (p.1 == k') = false := by simpa using hq
          simpa [getEntry, setEntry, hp2, hq2, List.find?] using ih

lemma getEntry_setEntry_isSome {α : Type} (m : List (String × α)) (k k' : String)
    (v : α) (h : (getEntry m k').isSome) :
    (getEntry (setEntry m k v) k').isSome := by
  by_cases hk : k' = k
  · rw [hk, getEntry_setEntry_self]; rfl
  · rwa [getEntry_setEntry_ne m k k' v hk]

lemma getEntry_setEntry_same_val {α : Type} (m : List (String × α)) (k k' : String)
    (u : α) (h : getEntry m k' = some u) :
    getEntry (setEntry m k u) k' = some u := by
  by_cases hk : k' = k
  · rw [hk, getEntry_setEntry_self]
  · rwa [getEntry_setEntry_ne m k k' u hk]

lemma mem_keys_setEntry {α : Type} (m : List (String × α)) (k : String) (v : α)
    (x : String) :
    x ∈ (setEntry m k v).map Prod.fst ↔ x ∈ m.map Prod.fst ∨ x = k := by
  induction m with
  | nil => simp [setEntry]
  | cons p m ih =>
      by_cases hp : p.1 = k
      · simp [setEntry, hp]
        tauto
      · have hp2 : (p.1 == k) = false := by simpa using hp
        simp [setEntry, hp2, ih]
        tauto

lemma keys_nodup_setEntry {α : Type} (m : List (String × α)) (k : String) (v : α)
    (h : (m.map Prod.fst).Nodup) : ((setEntry m k v).map Prod.fst).Nodup := by
  induction m with
  | nil => simp [setEntry]
  | cons p m ih =>
      rw [List.map_cons, List.nodup_cons] at h
      by_cases hp : p.1 = k
      · simp only [setEntry, show (p.1 == k) = true by simpa using hp, if_pos,
          List.map_cons, List.nodup_cons]
        exact ⟨by rw [← hp]; exact h.1, h.2⟩
      · have hp2 : (p.1 == k) = false := by simpa using hp
        simp only [setEntry, hp2, Bool.false_eq_true, if_neg, not_false_iff,
          List.map_cons, List.nodup_cons]
        refine ⟨fun hmem => ?_, ih h.2⟩
        rcases (mem_keys_setEntry m k v p.1).mp hmem with hin | heq
        · exact h.1 hin
        · exact hp heq

/-! ## Scoring engine (`score.js`, the current five-argument version)

`loadTargets` (a filesystem/settings read) is injected as the resulting
`uaDistribution` parameter. The display-only `weightReason` string, the
formatted dates and the `where`/`originType` row columns are not modelled:
no checked property mentions them and they feed into no computation.
-/

/-- The fields of a detected token (`Token` in `tokens.js`) that the scoring
engine reads: the raw token text and its origin classification (`""` models
the JS `undefined` left by extractors that set no `originType`). The
location fields only feed the display-only `where` column. -/
structure Token where
  token : String
  originType : String := ""
deriving DecidableEq, Repr

/-- The token-count predicate of `calculateUsageWeight`: the lowercased token
contains the lowercased feature id, or vice versa. -/
def tokenMatchesFeature (featureIdStr : String) (t : Token) : Bool :=
  strIncludes (strLower t.token) featureIdStr ||
    strIncludes featureIdStr (strLower t.token)

/-- `calculateUsageWeight(featureId, coverageData, tokens)` from `score.js`:
a usage weight from the token-occurrence count, optionally multiplied by a
coverage factor `clamp(frequency/10, 0.5, 1.5)`, the result clamped to
`[0.5, 1.5]`. Coverage data is the optional map `featureId ↦ frequency`.
The accompanying human-readable `reason` string is display-only and not
modelled. -/
def calculateUsageWeight (featureId : String)
    (coverageData : Option (List (String × ℚ))) (tokens : List Token) : ℚ :=
  let featureIdStr := strLower featureId
  let tokenCount := (tokens.filter (tokenMatchesFeature featureIdStr)).length
  let weight : ℚ :=
    if 50 < tokenCount then 1.5
    else if 20 < tokenCount then 1.3
    else if 5 < tokenCount then 1.1
    else if tokenCount = 1 then 0.8
    else if tokenCount = 0 then 0.5
    else 1.0
  let weight :=
    match coverageData with
    | none => weight
    | some cd =>
        match getEntry cd featureId with
        | none => weight
        | some frequency => weight * min (max (frequency / 10) 0.5) 1.5
  min (max weight 0.5) 1.5

/-- `getStatusPoints(status)` from `score.js`: Widely earns 2 points, Newly 1,
Limited and Unknown (and the default case) 0. -/
def getStatusPoints (status : BStatus) : ℚ :=
  if status = BStatus.widely then 2
  else if status = BStatus.newly then 1
  else 0

/-- The fixed core-feature allowlist of `isCoreFeature`. -/
def coreFeatures : List String :=
  ["fetch", "abortable-fetch", "promises", "async-await", "grid", "flexbox",
   "custom-properties", "es6-module", "arrow-functions", "const-let",
   "websockets", "xhr", "dom-manipulation", "forms", "semantic-html",
   "accessibility"]

/-- `isCoreFeature(featureId)` from `score.js`. -/
def isCoreFeature (featureId : String) : Bool := coreFeatures.contains featureId

/-- The fixed niche-feature allowlist downweighted when vendor-only. -/
def nicheFeatures : List String :=
  ["web-nfc", "webnn", "compute-pressure", "document-picture-in-picture"]

/-- `calculateProgressiveEnhancementBonus(featureStatuses)` from `score.js`:
+0.10 when at least 90% of the used core features are Widely, +0.05 when at
least 80% of the used non-core features are Newly or Widely, capped at 0.15. -/
def calculateProgressiveEnhancementBonus
    (featureStatuses : List (String × StatusRecord)) : ℚ :=
  let coreCount := (featureStatuses.filter (fun p => isCoreFeature p.1)).length
  let coreWidelySupported :=
    (featureStatuses.filter
      (fun p => isCoreFeature p.1 && p.2.status == BStatus.widely)).length
  let enhancementCount :=
    (featureStatuses.filter (fun p => !isCoreFeature p.1)).length
  let enhancementAppropriate :=
    (featureStatuses.filter (fun p =>
      !isCoreFeature p.1 &&
        (p.2.status == BStatus.newly || p.2.status == BStatus.widely))).length
  let bonus : ℚ := 0
  let bonus :=
    if 0 < coreCount ∧ (9/10 : ℚ) ≤ (coreWidelySupported : ℚ) / coreCount then
      bonus + 0.1
    else bonus
  let bonus :=
    if 0 < enhancementCount ∧
        (8/10 : ℚ) ≤ (enhancementAppropriate : ℚ) / enhancementCount then
      bonus + 0.05
    else bonus
  min bonus 0.15

/-- The per-feature weight pipeline of the `calculateScore` loop: usage
weight × UA-support factor × (0.75 when the feature is niche and every
matching token is vendor-originated — the source reads the `originType` of
the first token mapping to the feature, defaulting to `'first-party'`),
finally clamped to `[0.5, 1.5]`. -/
def featureWeight (tokens : List Token) (tokenToFeatureMap : List (String × String))
    (usageData : Option (List (String × ℚ))) (uaDistribution : UADist)
    (featureId : String) (status : BStatus) : ℚ :=
  let weight := calculateUsageWeight featureId usageData tokens
  let uaFactor := uaSupportFactor status uaDistribution
  let weight := weight * uaFactor
  let originType :=
    match tokens.find? (fun t => getEntry tokenToFeatureMap t.token == some featureId) with
    | some t => if t.originType = "" then "first-party" else t.originType
    | none => "first-party"
  let weight :=
    if originType = "vendor" && nicheFeatures.contains featureId then weight * 0.75
    else weight
  min (max weight 0.5) 1.5

/-- A row of the details table (`BaselineRow` in `score.js`) restricted to the
fields that feed scoring, sorting, budgets and diffs. The source stores
`weight` as `undefined` when it equals 1.0 and every reader restores it with
`|| 1`, so the weight is modelled directly; likewise `isCore` is stored as
`true || undefined`. -/
structure BaselineRow where
  feature_id : String
  status : BStatus
  weight : ℚ
  isCore : Bool
deriving DecidableEq, Repr

/-- Construction of one details row from one map entry inside the
`calculateScore` loop. -/
def mkRow (tokens : List Token) (tokenToFeatureMap : List (String × String))
    (usageData : Option (List (String × ℚ))) (uaDistribution : UADist)
    (p : String × StatusRecord) : BaselineRow :=
  ⟨p.1, p.2.status,
    featureWeight tokens tokenToFeatureMap usageData uaDistribution p.1 p.2.status,
    isCoreFeature p.1⟩

/-- The `statusOrder` table of the row comparator:
`{limited: 0, newly: 1, widely: 2, unknown: 3}`. -/
def statusOrder : BStatus → ℕ
  | BStatus.limited => 0
  | BStatus.newly => 1
  | BStatus.widely => 2
  | BStatus.unknown => 3

/-- The row comparator of `rows.sort` in `score.js`, as the non-strict order
"a sorts no later than b": ascending status rank first, then weight
descending, then feature identifier ascending (`localeCompare`, modelled as
the lexicographic string order — the identifiers are plain ASCII). -/
def rowLE (a b : BaselineRow) : Prop :=
  statusOrder a.status < statusOrder b.status ∨
    (statusOrder a.status = statusOrder b.status ∧
      (b.weight < a.weight ∨ (a.weight = b.weight ∧ a.feature_id ≤ b.feature_id)))

instance : DecidableRel rowLE := fun a b => by unfold rowLE; infer_instance

lemma rowLE_total (a b : BaselineRow) : rowLE a b ∨ rowLE b a := by
  unfold rowLE
  rcases lt_trichotomy (statusOrder a.status) (statusOrder b.status) with h | h | h
  · exact Or.inl (Or.inl h)
  · rcases lt_trichotomy a.weight b.weight with hw | hw | hw
    · exact Or.inr (Or.inr ⟨h.symm, Or.inl hw⟩)
    · rcases le_total a.feature_id b.feature_id with hf | hf
      · exact Or.inl (Or.inr ⟨h, Or.inr ⟨hw, hf⟩⟩)
      · exact Or.inr (Or.inr ⟨h.symm, Or.inr ⟨hw.symm, hf⟩⟩)
    · exact Or.inl (Or.inr ⟨h, Or.inl hw⟩)
  · exact Or.inr (Or.inl h)

lemma rowLE_trans (a b c : BaselineRow) : rowLE a b → rowLE b c → rowLE a c := by
  unfold rowLE
  rintro (hab | ⟨hab, hw⟩) (hbc | ⟨hbc, hw2⟩)
  · exact Or.inl (lt_trans hab hbc)
  · exact Or.inl (hbc ▸ hab)
  · exact Or.inl (hab ▸ hbc)
  · refine Or.inr ⟨hab.trans hbc, ?_⟩
    rcases hw with hw | ⟨hweq, hf⟩
    · rcases hw2 with hw2 | ⟨hweq2, _⟩
      · exact Or.inl (lt_trans hw2 hw)
      · exact Or.inl (hweq2 ▸ hw)
    · rcases hw2 with hw2 | ⟨hweq2, hf2⟩
      · exact Or.inl (hweq ▸ hw2)
      · exact Or.inr ⟨hweq.trans hweq2, hf.trans hf2⟩

instance : IsTotal BaselineRow rowLE := ⟨rowLE_total⟩

instance : IsTrans BaselineRow rowLE := ⟨rowLE_trans⟩

lemma rowLE_antisymm_id (a b : BaselineRow) :
    rowLE a b → rowLE b a → a.feature_id = b.feature_id := by
  unfold rowLE
  rintro (hab | ⟨hab, hw⟩) (hba | ⟨hba, hw2⟩)
  · omega
  · omega
  · omega
  · rcases hw with hw | ⟨hweq, hf⟩
    · rcases hw2 with hw2 | ⟨hweq2, _⟩
      · exact absurd (lt_trans hw hw2) (lt_irrefl _)
      · exact absurd (hweq2 ▸ hw) (lt_irrefl _)
    · rcases hw2 with hw2 | ⟨hweq2, hf2⟩
      · exact absurd (hweq ▸ hw2) (lt_irrefl _)
      · exact le_antisymm hf hf2

/-- The strict version of the row order; on rows with pairwise-distinct
feature identifiers the sorted output is the unique `rowLT`-sorted list. -/
def rowLT (a b : BaselineRow) : Prop := rowLE a b ∧ ¬ rowLE b a

instance : IsAntisymm BaselineRow rowLT :=
  ⟨fun _ _ h1 h2 => absurd h1.1 h2.2⟩

/-- The result record of `calculateScore` (`BaselineScore` in `score.js`). -/
structure BaselineScore where
  score01 : ℚ
  numeric100 : ℤ
  rows : List BaselineRow
  warnings : List String
deriving DecidableEq, Repr

/-- Warning text pushed when no features were detected. -/
def zeroFeaturesWarning : String := "No Web Platform features detected"

/-- Warning text pushed when more than 30% of the features are Limited. -/
def limitedPenaltyWarning : String :=
  "High usage of features with limited browser support detected"

/-- Warning text pushed when no core feature is present. -/
def noCoreWarning : String :=
  "Consider using well-established web platform features for better compatibility"

/-- `calculateScore(featureStatuses, tokens, tokenToFeatureMap, usageData,
settings)` from `score.js`. The status map is its entry list in iteration
order; `loadTargets(settings).uaDistribution` is the injected
`uaDistribution`. The row sort models `rows.sort(comparator)` — a stable
comparison sort whose comparator is total, transitive, and antisymmetric on
rows with distinct feature identifiers, so any correct sort produces this
insertion-sorted list. -/
def calculateScore (featureStatuses : List (String × StatusRecord))
    (tokens : List Token) (tokenToFeatureMap : List (String × String))
    (usageData : Option (List (String × ℚ))) (uaDistribution : UADist) :
    BaselineScore :=
  let rows := featureStatuses.map (mkRow tokens tokenToFeatureMap usageData uaDistribution)
  let totalPoints := (rows.map (fun r => getStatusPoints r.status * r.weight)).sum
  let maxPoints := (rows.map (fun r => 2 * r.weight)).sum
  let limitedFeatureCount :=
    (featureStatuses.filter (fun p => p.2.status == BStatus.limited)).length
  let coreFeatureCount :=
    (featureStatuses.filter (fun p => isCoreFeature p.1)).length
  let progressiveBonus := calculateProgressiveEnhancementBonus featureStatuses
  let score01 : ℚ := if 0 < maxPoints then totalPoints / maxPoints else 1
  let score01 := min (score01 + progressiveBonus) 1
  let limitedRatio : ℚ :=
    if 0 < featureStatuses.length then
      (limitedFeatureCount : ℚ) / (featureStatuses.length : ℚ)
    else 0
  let penalized := (3/10 : ℚ) < limitedRatio
  let score01 := if penalized then score01 * 0.8 else score01
  let sortedRows := List.insertionSort rowLE rows
  let numeric100 := jsRound (score01 * 100)
  let unknownCount :=
    (featureStatuses.filter (fun p => p.2.status == BStatus.unknown)).length
  let warnings :=
    (if penalized then [limitedPenaltyWarning] else []) ++
    (if featureStatuses.length = 0 then [zeroFeaturesWarning] else []) ++
    (if 0 < unknownCount then
      ["Unable to determine Baseline status for " ++ toString unknownCount ++
        " features"] else []) ++
    (if coreFeatureCount = 0 ∧ 0 < featureStatuses.length then [noCoreWarning] else [])
  { score01 := score01, numeric100 := numeric100, rows := sortedRows,
    warnings := warnings }

lemma calculateScore_rows (featureStatuses : List (String × StatusRecord))
    (tokens : List Token) (tokenToFeatureMap : List (String × String))
    (usageData : Option (List (String × ℚ))) (uaDistribution : UADist) :
    (calculateScore featureStatuses tokens tokenToFeatureMap usageData uaDistribution).rows =
      List.insertionSort rowLE
        (featureStatuses.map (mkRow tokens tokenToFeatureMap usageData uaDistribution)) := rfl

/-- Claim C1: the scoring engine's base points per status are Widely = 2,
Newly = 1, Limited = 0 and Unknown = 0. `getStatusPoints` takes only the
status — the scoring loop computes `getStatusPoints(status.status)` with no
feature-identifier or `isCore` input — so the points are independent of
whether the feature is in the core allowlist. -/
theorem getStatusPoints_values :
    getStatusPoints BStatus.widely = 2 ∧ getStatusPoints BStatus.newly = 1 ∧
    getStatusPoints BStatus.limited = 0 ∧ getStatusPoints BStatus.unknown = 0 := by
  decide

/-- Claim C10: on an empty status map the scoring engine returns a perfect
score — `score01 = 1` and `numeric100 = 100` — with the zero-features warning
as its only warning, rather than 0 or an error. -/
theorem calculateScore_empty (tokens : List Token) (tfm : List (String × String))
    (usageData : Option (List (String × ℚ))) (uaDistribution : UADist) :
    calculateScore [] tokens tfm usageData uaDistribution =
      { score01 := 1, numeric100 := 100, rows := [],
        warnings := [zeroFeaturesWarning] } := by
  simp only [calculateScore, calculateProgressiveEnhancementBonus, List.map_nil,
    List.filter_nil, List.length_nil, List.sum_nil, List.insertionSort,
    BaselineScore.mk.injEq]
  norm_num [jsRound, Int.floor_eq_iff]

lemma clamp_half_threeHalves_bounds (w : ℚ) :
    (1:ℚ)/2 ≤ min (max w 0.5) 1.5 ∧ min (max w 0.5) 1.5 ≤ 3/2 :=
  ⟨le_min (le_trans (by norm_num) (le_max_right w 0.5)) (by norm_num),
   le_trans (min_le_right _ _) (by norm_num)⟩

lemma featureWeight_bounds (tokens : List Token) (tfm : List (String × String))
    (usageData : Option (List (String × ℚ))) (uaDistribution : UADist)
    (featureId : String) (status : BStatus) :
    (1:ℚ)/2 ≤ featureWeight tokens tfm usageData uaDistribution featureId status ∧
    featureWeight tokens tfm usageData uaDistribution featureId status ≤ 3/2 := by
  simp only [featureWeight]
  exact clamp_half_threeHalves_bounds _

/-- Claim C4: every per-feature weight the scoring engine emits — after usage
weighting, coverage adjustment, the UA-support factor and any vendor-niche
downweight — lies in the closed interval [0.5, 1.5]. -/
theorem calculateScore_weight_bounded
    (featureStatuses : List (String × StatusRecord)) (tokens : List Token)
    (tfm : List (String × String)) (usageData : Option (List (String × ℚ)))
    (uaDistribution : UADist) (r : BaselineRow)
    (hr : r ∈ (calculateScore featureStatuses tokens tfm usageData uaDistribution).rows) :
    (1:ℚ)/2 ≤ r.weight ∧ r.weight ≤ 3/2 := by
  rw [calculateScore_rows, List.mem_insertionSort] at hr
  rcases List.mem_map.mp hr with ⟨p, _, rfl⟩
  simp only [mkRow]
  exact featureWeight_bounds tokens tfm usageData uaDistribution p.1 p.2.status

/-- Witness for C4 at a concrete run: a single Widely feature with no tokens
gets a weight inside [0.5, 1.5]. -/
theorem calculateScore_weight_bounded_witness :
    (1:ℚ)/2 ≤ (mkRow [] [] none ⟨0.25, 0.25, 0.25, 0.25⟩
        ("grid", ⟨BStatus.widely, none, none⟩)).weight ∧
    (mkRow [] [] none ⟨0.25, 0.25, 0.25, 0.25⟩
        ("grid", ⟨BStatus.widely, none, none⟩)).weight ≤ 3/2 :=
  calculateScore_weight_bounded [("grid", ⟨BStatus.widely, none, none⟩)] [] [] none
    ⟨0.25, 0.25, 0.25, 0.25⟩ _
    (by rw [calculateScore_rows]
        simp [List.insertionSort, List.orderedInsert])

/-- Claim C5: the output row list is sorted with primary key status rank in
the order Limited < Newly < Widely < Unknown ascending, secondary key weight
descending, tertiary key feature identifier ascending (`rowLE` is exactly
that lexicographic comparator), and the output is identical for any two
iteration orders (permutations) of the same input map. -/
theorem calculateScore_rows_sorted_deterministic
    (tokens : List Token) (tfm : List (String × String))
    (usageData : Option (List (String × ℚ))) (uaDistribution : UADist)
    (l1 l2 : List (String × StatusRecord))
    (hperm : l1.Perm l2) (hnd : (l1.map Prod.fst).Nodup) :
    (calculateScore l1 tokens tfm usageData uaDistribution).rows.Pairwise rowLE ∧
    (calculateScore l1 tokens tfm usageData uaDistribution).rows =
      (calculateScore l2 tokens tfm usageData uaDistribution).rows := by
  have sorted1 :
      (List.insertionSort rowLE
        (l1.map (mkRow tokens tfm usageData uaDistribution))).Sorted rowLE :=
    List.sorted_insertionSort rowLE _
  have sorted2 :
      (List.insertionSort rowLE
        (l2.map (mkRow tokens tfm usageData uaDistribution))).Sorted rowLE :=
    List.sorted_insertionSort rowLE _
  refine ⟨by rw [calculateScore_rows]; exact sorted1, ?_⟩
  rw [calculateScore_rows, calculateScore_rows]
  set mk := mkRow tokens tfm usageData uaDistribution with hmk
  have hids1 : (l1.map mk).map (fun r => r.feature_id) = l1.map Prod.fst := by
    simp [List.map_map, hmk, mkRow]
  have hids2 : (l2.map mk).map (fun r => r.feature_id) = l2.map Prod.fst := by
    simp [List.map_map, hmk, mkRow]
  have hnd2 : (l2.map Prod.fst).Nodup := ((hperm.map Prod.fst).nodup_iff).mp hnd
  have hndRows1 : ((l1.map mk).map (fun r => r.feature_id)).Nodup := by
    rw [hids1]; exact hnd
  have hndRows2 : ((l2.map mk).map (fun r => r.feature_id)).Nodup := by
    rw [hids2]; exact hnd2
  have hndSort1 :
      ((List.insertionSort rowLE (l1.map mk)).map (fun r => r.feature_id)).Nodup :=
    (((List.perm_insertionSort rowLE (l1.map mk)).map
        (fun r => r.feature_id)).nodup_iff).mpr hndRows1
  have hndSort2 :
      ((List.insertionSort rowLE (l2.map mk)).map (fun r => r.feature_id)).Nodup :=
    (((List.perm_insertionSort rowLE (l2.map mk)).map
        (fun r => r.feature_id)).nodup_iff).mpr hndRows2
  have hne1 :
      (List.insertionSort rowLE (l1.map mk)).Pairwise
        (fun a b => a.feature_id ≠ b.feature_id) :=
    (List.pairwise_map).mp hndSort1
  have hne2 :
      (List.insertionSort rowLE (l2.map mk)).Pairwise
        (fun a b => a.feature_id ≠ b.feature_id) :=
    (List.pairwise_map).mp hndSort2
  have strict1 : (List.insertionSort rowLE (l1.map mk)).Sorted rowLT :=
    (sorted1.and hne1).imp
      (fun h => ⟨h.1, fun hba => h.2 (rowLE_antisymm_id _ _ h.1 hba)⟩)
  have strict2 : (List.insertionSort rowLE (l2.map mk)).Sorted rowLT :=
    (sorted2.and hne2).imp
      (fun h => ⟨h.1, fun hba => h.2 (rowLE_antisymm_id _ _ h.1 hba)⟩)
  have hpermSorted :
      (List.insertionSort rowLE (l1.map mk)).Perm
        (List.insertionSort rowLE (l2.map mk)) :=
    (List.perm_insertionSort rowLE (l1.map mk)).trans
      ((hperm.map mk).trans (List.perm_insertionSort rowLE (l2.map mk)).symm)
  exact List.eq_of_perm_of_sorted hpermSorted strict1 strict2

/-- Witness for C5: two iteration orders of the same two-feature map produce
a sorted row list and identical outputs. -/
theorem calculateScore_rows_sorted_deterministic_witness :
    (calculateScore
        [("b", ⟨BStatus.limited, none, none⟩), ("a", ⟨BStatus.widely, none, none⟩)]
        [] [] none ⟨0.25, 0.25, 0.25, 0.25⟩).rows.Pairwise rowLE ∧
    (calculateScore
        [("b", ⟨BStatus.limited, none, none⟩), ("a", ⟨BStatus.widely, none, none⟩)]
        [] [] none ⟨0.25, 0.25, 0.25, 0.25⟩).rows =
      (calculateScore
        [("a", ⟨BStatus.widely, none, none⟩), ("b", ⟨BStatus.limited, none, none⟩)]
        [] [] none ⟨0.25, 0.25, 0.25, 0.25⟩).rows :=
  calculateScore_rows_sorted_deterministic [] [] none ⟨0.25, 0.25, 0.25, 0.25⟩
    _ _ (List.Perm.swap _ _ _) (by decide)

/-! ## Budget evaluator (`budgets.js`)

`loadBudgets` (settings/filesystem access) is modelled by passing the
already-parsed policy object to `normalizePolicy`; `getRouteFromUrl` (URL
parsing) is modelled by passing the route string directly. -/

/-- A per-route policy fragment as read from the budget file; absent JSON
fields are `none`. -/
structure RoutePolicyInput where
  minScore : Option ℚ := none
  forbidLimited : Option Bool := none
deriving DecidableEq, Repr

/-- A budget policy as read from the budget file, before normalization. -/
structure BudgetPolicyInput where
  minScore : Option ℚ := none
  forbidLimited : Option Bool := none
  allowUnknown : Option Bool := none
  perRoute : List (String × RoutePolicyInput) := []
deriving DecidableEq, Repr

/-- A normalized per-route policy: `minScore` clamped into [0,1] when
present, `forbidLimited` coerced to a definite boolean by `Boolean(x)`. -/
structure RoutePolicy where
  minScore : Option ℚ
  forbidLimited : Bool
deriving DecidableEq, Repr

/-- A normalized budget policy (`BaselineBudget` after `normalizePolicy`). -/
structure BudgetPolicy where
  minScore : Option ℚ
  forbidLimited : Bool
  allowUnknown : Bool
  perRoute : List (String × RoutePolicy)
deriving DecidableEq, Repr

/-- `normalizePolicy(policy)` from `budgets.js`: clamp scores into [0,1],
coerce `forbidLimited` with `Boolean(...)` (default false), default
`allowUnknown` to true unless explicitly false, and normalize every
per-route entry the same way. -/
def normalizePolicy (policy : BudgetPolicyInput) : BudgetPolicy :=
  { minScore := policy.minScore.map (fun q => max 0 (min 1 q))
    forbidLimited := policy.forbidLimited.getD false
    allowUnknown := !(policy.allowUnknown == some false)
    perRoute := policy.perRoute.map (fun p =>
      (p.1, { minScore := p.2.minScore.map (fun q => max 0 (min 1 q))
              forbidLimited := p.2.forbidLimited.getD false })) }

/-- The verdict record of `evaluateBudgets` (`BudgetEvaluation`). -/
structure BudgetEvaluation where
  violated : Bool
  reasons : List String
deriving DecidableEq, Repr

/-- `reasons[reasons.length - 1] += suffix` on a reason list. -/
def appendToLast (l : List String) (suffix : String) : List String :=
  match l.getLast? with
  | none => l
  | some last => l.dropLast ++ [last ++ suffix]

/-- `evaluateBudgets({policy, route, score01, rows})` from `budgets.js`:
merge the per-route override over the global policy (`??` fallbacks — note a
present per-route entry always supplies `forbidLimited`, since normalization
made it a definite boolean), independently check the minimum score, the
Limited ban and the Unknown ban, and tag the last reason with the route when
a per-route `minScore` is present and the route is not `/`. -/
def evaluateBudgets (policy : BudgetPolicy) (route : String) (score01 : ℚ)
    (rows : List BaselineRow) : BudgetEvaluation :=
  let routePolicy := getEntry policy.perRoute route
  let effectiveMinScore : Option ℚ :=
    match routePolicy with
    | some rp => match rp.minScore with
        | some m => some m
        | none => policy.minScore
    | none => policy.minScore
  let effectiveForbidLimited :=
    match routePolicy with
    | some rp => rp.forbidLimited
    | none => policy.forbidLimited
  let effectiveAllowUnknown := policy.allowUnknown
  let minCheck : Bool × List String :=
    match effectiveMinScore with
    | some m =>
        if score01 < m then
          (true, ["score " ++ toString (jsRound (score01 * 100)) ++ "% < " ++
            toString (jsRound (m * 100)) ++ "%"])
        else (false, [])
    | none => (false, [])
  let hasLimited := rows.any (fun r => r.status == BStatus.limited)
  let limitedCount := (rows.filter (fun r => r.status == BStatus.limited)).length
  let limitedViol := effectiveForbidLimited && hasLimited
  let hasUnknown := rows.any (fun r => r.status == BStatus.unknown)
  let unknownCount := (rows.filter (fun r => r.status == BStatus.unknown)).length
  let unknownViol := !effectiveAllowUnknown && hasUnknown
  let violated := minCheck.1 || limitedViol || unknownViol
  let reasons :=
    minCheck.2 ++
    (if limitedViol then
      [toString limitedCount ++ " limited feature" ++
        (if 1 < limitedCount then "s" else "") ++ " present"] else []) ++
    (if unknownViol then
      [toString unknownCount ++ " unknown feature" ++
        (if 1 < unknownCount then "s" else "") ++ " present"] else [])
  let routeMinPresent := (routePolicy.bind (fun rp => rp.minScore)).isSome
  let reasons :=
    if violated && !(route == "/") && routeMinPresent then
      appendToLast reasons (" on route " ++ route)
    else reasons
  { violated := violated, reasons := reasons }

/-- Claim C7: with a global `minScore` of 0.80, a per-route override for
`/api` of `{minScore: 0.95, forbidLimited: true}`, a score of 0.90 and a row
list with exactly one Limited row, evaluating the budget for `/api` yields
`violated = true` with exactly two reasons — the per-route fields win over
the global ones and the three checks fire independently. -/
theorem evaluateBudgets_scenario :
    (evaluateBudgets
        (normalizePolicy
          { minScore := some 0.80,
            perRoute := [("/api",
              { minScore := some 0.95, forbidLimited := some true })] })
        "/api" 0.90 [⟨"popover", BStatus.limited, 1, false⟩]).violated = true ∧
    (evaluateBudgets
        (normalizePolicy
          { minScore := some 0.80,
            perRoute := [("/api",
              { minScore := some 0.95, forbidLimited := some true })] })
        "/api" 0.90 [⟨"popover", BStatus.limited, 1, false⟩]).reasons.length = 2 := by
  have hclamp : max (0:ℚ) (min 1 0.95) = 0.95 := by norm_num
  have hlt : (0.90 : ℚ) < 0.95 := by norm_num
  simp only [evaluateBudgets, normalizePolicy, getEntry, appendToLast, hclamp]
  norm_num [List.find?, List.filter, List.any]
  split <;> rfl

/-! ## Diff engine (`baseline-diff.mjs`)

The diff engine reads serialized reports, so statuses are raw strings here
(lowercased on entry) and weights are the optionally stored row weights.
File loading, console printing and the output file write are stripped;
`computeDiff` is the pure diff assembly of `main`. -/

/-- One details item of a serialized report as the diff engine reads it. -/
structure DiffItem where
  feature_id : String
  status : String
  weight : Option ℚ := none
deriving DecidableEq, Repr

/-- The per-feature data `buildFeatureMap` keeps (`{status, weight}`). -/
structure DiffData where
  status : String
  weight : ℚ
deriving DecidableEq, Repr

/-- `buildFeatureMap(items)`: a map keyed by feature id with the lowercased
status and the weight defaulted through `|| 1.0` (absent — or zero — weights
read as 1). -/
def buildFeatureMap (items : List DiffItem) : List (String × DiffData) :=
  items.foldl (fun m item =>
    setEntry m item.feature_id
      { status := strLower item.status
        weight :=
          match item.weight with
          | some w => if w = 0 then 1 else w
          | none => 1 }) []

/-- The `statusRank` table of `findDowngrades`
(`{widely: 3, newly: 2, limited: 1, unknown: 0}` with `|| 0` for anything
else). -/
def statusRank (s : String) : ℕ :=
  (getEntry [("widely", 3), ("newly", 2), ("limited", 1), ("unknown", 0)] s).getD 0

/-- The `statusPoints` table of `findTopContributors`
(`{widely: 2, newly: 1, limited: 0, unknown: 0}` with `|| 0`). -/
def statusPointsOf (s : String) : ℚ :=
  (getEntry [("widely", 2), ("newly", 1), ("limited", 0), ("unknown", 0)] s).getD 0

/-- `findNewLimited(baseMap, headMap)`: features Limited in head that were
absent or non-Limited in base, in head-map order. The constant
`where: 'New in head'` display field is dropped; entries are the feature
identifiers. -/
def findNewLimited (baseMap headMap : List (String × DiffData)) : List String :=
  (headMap.filter (fun p =>
    p.2.status == "limited" &&
      (match getEntry baseMap p.1 with
       | some bd => !(bd.status == "limited")
       | none => true))).map Prod.fst

/-- A downgrade record `{feature_id, from, to}` (`from`/`to` are Lean
keywords, hence `fromStatus`/`toStatus`). -/
structure Downgrade where
  feature_id : String
  fromStatus : String
  toStatus : String
deriving DecidableEq, Repr

/-- `findDowngrades(baseMap, headMap)`: features present in both maps whose
status rank strictly decreased, in head-map order. -/
def findDowngrades (baseMap headMap : List (String × DiffData)) : List Downgrade :=
  headMap.filterMap (fun p =>
    match getEntry baseMap p.1 with
    | some bd =>
        if statusRank p.2.status < statusRank bd.status then
          some ⟨p.1, bd.status, p.2.status⟩
        else none
    | none => none)

/-- A score contributor `{feature_id, delta}`. -/
structure Contributor where
  feature_id : String
  delta : ℚ
deriving DecidableEq, Repr

/-- `findTopContributors(baseMap, headMap, limit = 5)`: per head feature,
`delta = headPoints·headWeight − basePoints·baseWeight` (0 base for absent
features); entries with `|delta| > 0.001` kept, sorted by `|delta|`
descending, truncated to the limit. (`buildFeatureMap` never produces a zero
weight, so the comparator's inner `|| 1.0` is the identity here.) -/
def findTopContributors (baseMap headMap : List (String × DiffData))
    (limit : ℕ := 5) : List Contributor :=
  let contributors := headMap.filterMap (fun p =>
    let basePoints : ℚ :=
      match getEntry baseMap p.1 with
      | some bd => statusPointsOf bd.status * bd.weight
      | none => 0
    let headPoints := statusPointsOf p.2.status * p.2.weight
    let delta := headPoints - basePoints
    if (1/1000 : ℚ) < |delta| then some ⟨p.1, delta⟩ else none)
  (List.insertionSort (fun a b => |b.delta| ≤ |a.delta|) contributors).take limit

/-- `Number(x.toFixed(3))` applied to the score delta: rounding to three
decimal places (exact whenever `1000·x` is an integer, as in every scenario
checked here). -/
def roundTo3 (q : ℚ) : ℚ := (jsRound (q * 1000) : ℚ) / 1000

/-- The diff output (`DiffResult`): `{scoreDelta, newLimited, downgrades,
topContributors}`. -/
structure DiffResult where
  scoreDelta : ℚ
  newLimited : List String
  downgrades : List Downgrade
  topContributors : List Contributor
deriving DecidableEq, Repr

/-! ## Batched status resolver (`webstatus-client.js`)

`fetchWithTimeout` and the HTTP layer are modelled by an attempt oracle
`ℕ → AttemptOutcome` giving the outcome of each successive attempt, which
quantifies over every possible authority behavior (success, partial data,
malformed bodies, every status code, network errors, timeouts, and any
mixture over time). `Date.now()` is the explicit `now` argument. The
`async` retry recursion is a tail call in the source (`return
fetchFeaturesBatch(...)` without `await` inside `try`), so errors of a
recursive call propagate to the original caller without re-entering the
enclosing `catch`; the recursion below mirrors exactly that. -/

/-- Retry limit of `fetchFeaturesBatch` (`MAX_RETRIES`). -/
def MAX_RETRIES : ℕ := 3

/-- Batch size of `fetchBaselineStatus` (`BATCH_SIZE`). -/
def BATCH_SIZE : ℕ := 20

/-- A `baseline` payload inside an authority response feature. -/
structure RawBaseline where
  status : String
  low_date : Option String := none
  high_date : Option String := none
deriving DecidableEq, Repr

/-- One feature entry of an authority response. -/
structure RawFeature where
  feature_id : String
  baseline : Option RawBaseline := none
deriving DecidableEq, Repr

/-- A response body: `unparsable` models a `response.json()` failure,
`malformed` a parsed value not of the expected shape (non-object, missing or
ill-typed `data`, non-string ids, ill-typed baselines), and `json` a body of
the rough expected shape, which `isValidResponse` still vets. -/
inductive Body where
  | unparsable
  | malformed
  | json (data : List RawFeature)
deriving DecidableEq, Repr

/-- The outcome of one HTTP attempt as `fetchFeaturesBatch` observes it. -/
inductive AttemptOutcome where
  | netError
  | timeout
  | httpResponse (statusCode : ℕ) (body : Body)
deriving DecidableEq, Repr

/-- The errors thrown by `fetchFeaturesBatch` and `fetchBaselineStatus`. The
source `catch` handler dispatches on substrings of the message: among these,
only `requestTimeout` ('Request timeout after ...ms') contains 'timeout',
only `circuitOpen` contains 'Circuit breaker', and only `invalidIds`
contains 'Invalid feature IDs'. `apiUnavailable` is the pre-flight throw of
`fetchBaselineStatus`, `apiUnreachable` its aggregate-failure throw. -/
inductive ClientErr where
  | circuitOpen
  | invalidIds
  | rateLimited
  | serverError (code : ℕ)
  | clientError (code : ℕ)
  | invalidJson
  | invalidStructure
  | requestTimeout
  | network
  | apiUnavailable
  | apiUnreachable
deriving DecidableEq, Repr

/-- Characters the query sanitizer keeps (`[a-zA-Z0-9-_.]`). -/
def isValidIdChar (c : Char) : Bool :=
  c.isAlpha || c.isDigit || c == '-' || c == '_' || c == '.'

/-- `id.replace(/[^a-zA-Z0-9-_.]/g, '')` from `buildQuery`. -/
def sanitizeId (s : String) : String := String.mk (s.toList.filter isValidIdChar)

/-- The valid ids `buildQuery` keeps: drop empty ids, sanitize, drop ids
that became empty (`typeof id === 'string'` is carried by the type). An
empty result makes `buildQuery` throw. -/
def validIdsOf (ids : List String) : List String :=
  ((ids.filter (fun id => 0 < id.length)).map sanitizeId).filter
    (fun id => 0 < id.length)

/-- `isValidResponse(data)`: the body must parse to an object with a `data`
array whose features have a string `feature_id` and, when `baseline` is
present, a status among `limited`, `newly`, `widely`. -/
def isValidResponse : Body → Bool
  | Body.unparsable => false
  | Body.malformed => false
  | Body.json data =>
      data.all (fun f =>
        match f.baseline with
        | none => true
        | some b => ["limited", "newly", "widely"].contains b.status)

/-- The outcome of one attempt of the `try`/`catch` body of
`fetchFeaturesBatch`: `done` ends the call (success, after `recordSuccess`);
`fail e br n` means the attempt failed with error `e`, leaving breaker `br`
(including any `recordFailure` executed inside the `try`), and on retry
exhaustion the `catch` (and, for 429/5xx, the throw site) performs `n` more
`recordFailure` calls before rethrowing. -/
inductive StepOutcome where
  | done (r : Except ClientErr (List RawFeature)) (br : Breaker)
  | fail (e : ClientErr) (br : Breaker) (exhaustFailures : ℕ)

/-- One attempt of `fetchFeaturesBatch`: the HTTP dispatch on `response.ok`,
429, 5xx, other client errors, JSON parsing and response validation.
Retryable outcomes record which breaker failures fire when (timeouts and
network errors only record a failure at exhaustion; 429/5xx record twice at
exhaustion — once at the throw site, once in the `catch`; parse, validation
and other 4xx failures record on every attempt plus once more in the `catch`
at exhaustion). -/
def attemptOnce (now : ℕ) (br : Breaker) : AttemptOutcome → StepOutcome
  | AttemptOutcome.timeout => StepOutcome.fail ClientErr.requestTimeout br 1
  | AttemptOutcome.netError => StepOutcome.fail ClientErr.network br 1
  | AttemptOutcome.httpResponse code body =>
      if 200 ≤ code ∧ code ≤ 299 then
        match body with
        | Body.unparsable =>
            StepOutcome.fail ClientErr.invalidJson (recordFailure now br) 1
        | Body.malformed =>
            StepOutcome.fail ClientErr.invalidStructure (recordFailure now br) 1
        | Body.json data =>
            if isValidResponse (Body.json data) then
              StepOutcome.done (Except.ok data) (recordSuccess br)
            else
              StepOutcome.fail ClientErr.invalidStructure (recordFailure now br) 1
      else if code = 429 then StepOutcome.fail ClientErr.rateLimited br 2
      else if 500 ≤ code then StepOutcome.fail (ClientErr.serverError code) br 2
      else StepOutcome.fail (ClientErr.clientError code) (recordFailure now br) 1

/-- `fetchFeaturesBatch(featureIds, retries)`: breaker check, empty-batch
short-circuit, query validation, then one attempt with retry recursion.
`retriesLeft` is `MAX_RETRIES - retries` (so `retries < MAX_RETRIES` is
`0 < retriesLeft`); `idx` indexes the attempt oracle and every path that
performed an HTTP attempt returns `idx + 1`. -/
def fetchFeaturesBatch (oracle : ℕ → AttemptOutcome) (now : ℕ)
    (ids : List String) :
    (retriesLeft : ℕ) → (idx : ℕ) → (br : Breaker) →
      Except ClientErr (List RawFeature) × Breaker × ℕ
  | retriesLeft, idx, br =>
    let allowed := shouldAllowRequest now br
    if allowed.1 = false then (Except.error ClientErr.circuitOpen, allowed.2, idx)
    else if ids.isEmpty then (Except.ok [], allowed.2, idx)
    else if (validIdsOf ids).isEmpty then
      (Except.error ClientErr.invalidIds, allowed.2, idx)
    else
      match attemptOnce now allowed.2 (oracle idx) with
      | StepOutcome.done r br2 => (r, br2, idx + 1)
      | StepOutcome.fail e br2 n =>
          match retriesLeft with
          | Nat.succ rl => fetchFeaturesBatch oracle now ids rl (idx + 1) br2
          | 0 => (Except.error e, (fun b => recordFailure now b)^[n] br2, idx + 1)

deriving instance DecidableEq for Except

/-- The module-level mutable state of `webstatus-client.js` the claims
touch: the process-lifetime cache and the circuit breaker (the hit/miss
counters feed only `getStats`). -/
structure ClientState where
  cache : List (String × StatusRecord)
  breaker : Breaker
deriving DecidableEq, Repr

/-- The state a fresh process starts with: empty cache, closed breaker. -/
def initialClientState : ClientState := ⟨[], initialBreaker⟩

/-- `x || undefined` on an optional date string: empty strings collapse to
`none`. -/
def orUndef : Option String → Option String
  | none => none
  | some s => if s = "" then none else some s

/-- The `{status: 'unknown'}` record cached for unresolved ids. -/
def unknownRecord : StatusRecord := ⟨BStatus.unknown, none, none⟩

/-- Parse a baseline status string. `processBatch` stores the raw string of
a feature that `isValidResponse` accepted, so only the three valid values
reach this conversion there. -/
def parseStatus (s : String) : BStatus :=
  if s = "limited" then BStatus.limited
  else if s = "newly" then BStatus.newly
  else if s = "widely" then BStatus.widely
  else BStatus.unknown

/-- The accumulator of the response-processing loop of `processBatch`:
the result map, the cache, and `foundFeatureIds`. -/
structure BatchAcc where
  results : List (String × StatusRecord)
  cache : List (String × StatusRecord)
  found : List String

/-- One iteration of the first loop of `processBatch`: skip features with a
falsy `feature_id`, convert the baseline (a falsy — empty — status string
counts as no baseline data, hence Unknown), and write results and cache in
lockstep while recording the id as found. -/
def processFeatureStep (acc : BatchAcc) (f : RawFeature) : BatchAcc :=
  if f.feature_id = "" then acc
  else
    let sr :=
      match f.baseline with
      | some b =>
          if b.status ≠ "" then
            ⟨parseStatus b.status, orUndef b.low_date, orUndef b.high_date⟩
          else unknownRecord
      | none => unknownRecord
    { results := setEntry acc.results f.feature_id sr
      cache := setEntry acc.cache f.feature_id sr
      found := acc.found ++ [f.feature_id] }

/-- The first loop of `processBatch` over the response features. -/
def processFeatures (features : List RawFeature) (acc : BatchAcc) : BatchAcc :=
  features.foldl processFeatureStep acc

/-- One iteration of the second loop of `processBatch`: a requested id
missing from `foundFeatureIds` becomes Unknown in results and cache. -/
def markMissingStep (acc : BatchAcc) (id : String) : BatchAcc :=
  if acc.found.contains id then acc
  else
    { acc with
      results := setEntry acc.results id unknownRecord
      cache := setEntry acc.cache id unknownRecord }

/-- The second loop of `processBatch` over the requested ids. -/
def markMissing (ids : List String) (acc : BatchAcc) : BatchAcc :=
  ids.foldl markMissingStep acc

/-- One iteration of the error branch of `processBatch`: the id becomes
Unknown in the result map and the cache. -/
def unknownFillStep
    (acc : List (String × StatusRecord) × List (String × StatusRecord))
    (id : String) :
    List (String × StatusRecord) × List (String × StatusRecord) :=
  (setEntry acc.1 id unknownRecord, setEntry acc.2 id unknownRecord)

/-- `processBatch(featureIds)`: fetch one batch and reconcile. On success,
answered features keep their baseline data (or Unknown when none) and
missing ids become Unknown; on any fetch error, every id of the batch
becomes Unknown — and in all cases the cache receives the same writes.
Returns the batch result map, the updated client state, and the next
attempt index. -/
def processBatch (oracle : ℕ → AttemptOutcome) (now : ℕ) (ids : List String)
    (s : ClientState) (idx : ℕ) :
    List (String × StatusRecord) × ClientState × ℕ :=
  if ids.isEmpty then ([], s, idx)
  else
    match fetchFeaturesBatch oracle now ids MAX_RETRIES idx s.breaker with
    | (Except.ok features, br, idx2) =>
        let acc := markMissing ids (processFeatures features ⟨[], s.cache, []⟩)
        (acc.results, ⟨acc.cache, br⟩, idx2)
    | (Except.error _, br, idx2) =>
        let filled := ids.foldl unknownFillStep ([], s.cache)
        (filled.1, ⟨filled.2, br⟩, idx2)

/-- Consecutive `BATCH_SIZE`-sized slices of the uncached ids (the batching
loop of `fetchBaselineStatus`), with the list length as structural fuel. -/
def chunkAux : ℕ → List String → List (List String)
  | 0, _ => []
  | _, [] => []
  | Nat.succ fuel, l => l.take BATCH_SIZE :: chunkAux fuel (l.drop BATCH_SIZE)

/-- All batches of a list of uncached ids. -/
def chunkBatches (l : List String) : List (List String) := chunkAux l.length l

/-- The accumulator of the batch-processing loop of `fetchBaselineStatus`. -/
structure ResolveAcc where
  results : List (String × StatusRecord)
  state : ClientState
  idx : ℕ
  hasAnyFailures : Bool

/-- One iteration of the cache-check loop of `fetchBaselineStatus`: a cache
hit is copied into the results, a miss is queued for fetching. -/
def cacheCheckStep (cache : List (String × StatusRecord))
    (acc : List (String × StatusRecord) × List String) (id : String) :
    List (String × StatusRecord) × List String :=
  match getEntry cache id with
  | some v => (setEntry acc.1 id v, acc.2)
  | none => (acc.1, acc.2 ++ [id])

/-- Merging one batch result map into the accumulated results
(`results.set(id, status)` per entry). -/
def mergeStep (m : List (String × StatusRecord)) (p : String × StatusRecord) :
    List (String × StatusRecord) :=
  setEntry m p.1 p.2

/-- One iteration of the batch loop of `fetchBaselineStatus`: process the
batch, merge its map, thread state and attempt index, and flag a batch that
degenerated entirely to Unknown. -/
def resolveStep (oracle : ℕ → AttemptOutcome) (now : ℕ) (acc : ResolveAcc)
    (batch : List String) : ResolveAcc :=
  let pb := processBatch oracle now batch acc.state acc.idx
  let allUnknown := (pb.1.map Prod.snd).all (fun v => v.status == BStatus.unknown)
  { results := pb.1.foldl mergeStep acc.results
    state := pb.2.1
    idx := pb.2.2
    hasAnyFailures := acc.hasAnyFailures || (allUnknown && !batch.isEmpty) }

/-- `fetchBaselineStatus(featureIds)`: serve cache hits, partition the
misses into batches, reject pre-flight when the breaker denies, process the
batches (linearized in batch order — the merged map is keyed by id, so the
claims checked here are independent of completion order), flag any batch
that degenerated entirely to Unknown, and finally throw an aggregate error
when such a batch exists and the breaker holds recorded failures; otherwise
return the merged map. (The `try`/`catch` around `processBatch` in the
source is dead — `processBatch` catches internally and never throws.) -/
def fetchBaselineStatus (oracle : ℕ → AttemptOutcome) (now : ℕ)
    (featureIds : List String) (s : ClientState) (idx : ℕ) :
    Except ClientErr (List (String × StatusRecord)) × ClientState × ℕ :=
  let start := featureIds.foldl (cacheCheckStep s.cache) ([], [])
  if start.2.isEmpty then (Except.ok start.1, s, idx)
  else
    let allowed := shouldAllowRequest now s.breaker
    if allowed.1 = false then
      (Except.error ClientErr.apiUnavailable, { s with breaker := allowed.2 }, idx)
    else
      let final := (chunkBatches start.2).foldl (resolveStep oracle now)
        ⟨start.1, { s with breaker := allowed.2 }, idx, false⟩
      if final.hasAnyFailures ∧ 0 < final.state.breaker.failureCount then
        (Except.error ClientErr.apiUnreachable, final.state, final.idx)
      else
        (Except.ok final.results, final.state, final.idx)

lemma exists_of_getEntry_isSome {α : Type} (l : List (String × α)) (id : String)
    (h : (getEntry l id).isSome) : ∃ p ∈ l, p.1 = id := by
  unfold getEntry at h
  cases hfind : List.find? (fun p => p.1 == id) l with
  | none => rw [hfind] at h; cases h
  | some p =>
      have hp := List.find?_some hfind
      have hmem := List.mem_of_find?_eq_some hfind
      exact ⟨p, hmem, by simpa using hp⟩

lemma processFeatureStep_inv (acc : BatchAcc) (f : RawFeature)
    (h : ∀ y ∈ acc.found, (getEntry acc.results y).isSome) :
    ∀ y ∈ (processFeatureStep acc f).found,
      (getEntry (processFeatureStep acc f).results y).isSome := by
  intro y hy
  unfold processFeatureStep at hy ⊢
  by_cases hid : f.feature_id = ""
  · simp only [if_pos hid] at hy ⊢
    exact h y hy
  · simp only [if_neg hid] at hy ⊢
    rcases List.mem_append.mp hy with hy | hy
    · exact getEntry_setEntry_isSome _ _ _ _ (h y hy)
    · have hyf : y = f.feature_id := by simpa using hy
      subst hyf
      rw [getEntry_setEntry_self]; rfl

lemma processFeatures_found_present (features : List RawFeature) :
    ∀ acc : BatchAcc, (∀ y ∈ acc.found, (getEntry acc.results y).isSome) →
      ∀ y ∈ (processFeatures features acc).found,
        (getEntry (processFeatures features acc).results y).isSome := by
  induction features with
  | nil => intro acc h; exact h
  | cons f fs ih => intro acc h; exact ih _ (processFeatureStep_inv acc f h)

lemma markMissingStep_mono (acc : BatchAcc) (id x : String)
    (h : (getEntry acc.results x).isSome) :
    (getEntry (markMissingStep acc id).results x).isSome := by
  unfold markMissingStep
  split
  · exact h
  · exact getEntry_setEntry_isSome _ _ _ _ h

lemma markMissing_mono (ids : List String) :
    ∀ (acc : BatchAcc) (x : String), (getEntry acc.results x).isSome →
      (getEntry (markMissing ids acc).results x).isSome := by
  induction ids with
  | nil => intro acc x h; exact h
  | cons id ids ih => intro acc x h; exact ih _ x (markMissingStep_mono acc id x h)

lemma markMissingStep_found (acc : BatchAcc) (id : String) :
    (markMissingStep acc id).found = acc.found := by
  unfold markMissingStep; split <;> rfl

lemma markMissing_complete (ids : List String) :
    ∀ acc : BatchAcc, (∀ y ∈ acc.found, (getEntry acc.results y).isSome) →
      ∀ id ∈ ids, (getEntry (markMissing ids acc).results id).isSome := by
  induction ids with
  | nil => intro acc _ id hid; cases hid
  | cons id0 ids ih =>
      intro acc h id hid
      have hstep : ∀ y ∈ (markMissingStep acc id0).found,
          (getEntry (markMissingStep acc id0).results y).isSome := by
        rw [markMissingStep_found]
        intro y hy
        exact markMissingStep_mono acc id0 y (h y hy)
      rcases List.mem_cons.mp hid with rfl | hid
      · have hpresent : (getEntry (markMissingStep acc id).results id).isSome := by
          unfold markMissingStep
          split
          case isTrue hc => exact h id (by simpa using hc)
          case isFalse => rw [getEntry_setEntry_self]; rfl
        exact markMissing_mono ids _ id hpresent
      · exact ih _ hstep id hid

lemma unknownFill_components (ids : List String) :
    ∀ acc : List (String × StatusRecord) × List (String × StatusRecord),
      ids.foldl unknownFillStep acc =
        (ids.foldl (fun c id => setEntry c id unknownRecord) acc.1,
         ids.foldl (fun c id => setEntry c id unknownRecord) acc.2) := by
  induction ids with
  | nil => intro acc; rfl
  | cons id ids ih => intro acc; exact ih (unknownFillStep acc id)

lemma constFill_val (ids : List String) :
    ∀ (c : List (String × StatusRecord)) (x : String),
      getEntry c x = some unknownRecord →
      getEntry (ids.foldl (fun c id => setEntry c id unknownRecord) c) x =
        some unknownRecord := by
  induction ids with
  | nil => intro c x h; exact h
  | cons id ids ih =>
      intro c x h
      exact ih _ x (getEntry_setEntry_same_val _ _ _ _ h)

lemma constFill_complete (ids : List String) :
    ∀ (c : List (String × StatusRecord)), ∀ id ∈ ids,
      getEntry (ids.foldl (fun c id => setEntry c id unknownRecord) c) id =
        some unknownRecord := by
  induction ids with
  | nil => intro c id hid; cases hid
  | cons id0 ids ih =>
      intro c id hid
      rcases List.mem_cons.mp hid with rfl | hid
      · exact constFill_val ids _ id (getEntry_setEntry_self c id unknownRecord)
      · exact ih _ id hid

lemma processBatch_complete (oracle : ℕ → AttemptOutcome) (now : ℕ)
    (ids : List String) (s : ClientState) (idx : ℕ) :
    ∀ id ∈ ids, (getEntry (processBatch oracle now ids s idx).1 id).isSome := by
  intro id hid
  unfold processBatch
  split
  case isTrue hv =>
    rw [List.isEmpty_iff] at hv
    subst hv
    cases hid
  case isFalse hv =>
    split
    case h_1 features br idx2 heq =>
      exact markMissing_complete ids _
        (processFeatures_found_present features ⟨[], s.cache, []⟩
          (by intro y hy; cases hy)) id hid
    case h_2 e br idx2 heq =>
      rw [unknownFill_components ids ([], s.cache)]
      have := constFill_complete ids [] id hid
      simp only [this]
      rfl

lemma processBatch_error_cache (oracle : ℕ → AttemptOutcome) (now : ℕ)
    (ids : List String) (s : ClientState) (idx : ℕ) (e : ClientErr)
    (herr : (fetchFeaturesBatch oracle now ids MAX_RETRIES idx s.breaker).1 =
      Except.error e) :
    ∀ id ∈ ids, getEntry (processBatch oracle now ids s idx).2.1.cache id =
      some unknownRecord := by
  intro id hid
  unfold processBatch
  split
  case isTrue hv =>
    rw [List.isEmpty_iff] at hv
    subst hv
    cases hid
  case isFalse hv =>
    split
    case h_1 features br idx2 heq =>
      exfalso
      rw [heq] at herr
      exact Except.noConfusion herr
    case h_2 e2 br idx2 heq =>
      rw [unknownFill_components ids ([], s.cache)]
      exact constFill_complete ids s.cache id hid

lemma cacheCheckStep_mono (cache : List (String × StatusRecord))
    (acc : List (String × StatusRecord) × List String) (id x : String)
    (h : (getEntry acc.1 x).isSome ∨ x ∈ acc.2) :
    (getEntry (cacheCheckStep cache acc id).1 x).isSome ∨
      x ∈ (cacheCheckStep cache acc id).2 := by
  unfold cacheCheckStep
  split
  · rcases h with h | h
    · exact Or.inl (getEntry_setEntry_isSome _ _ _ _ h)
    · exact Or.inr h
  · rcases h with h | h
    · exact Or.inl h
    · exact Or.inr (List.mem_append_left _ h)

lemma cacheCheck_mono (ids : List String) (cache : List (String × StatusRecord)) :
    ∀ (acc : List (String × StatusRecord) × List String) (x : String),
      ((getEntry acc.1 x).isSome ∨ x ∈ acc.2) →
      ((getEntry (ids.foldl (cacheCheckStep cache) acc).1 x).isSome ∨
        x ∈ (ids.foldl (cacheCheckStep cache) acc).2) := by
  induction ids with
  | nil => intro acc x h; exact h
  | cons id ids ih => intro acc x h; exact ih _ x (cacheCheckStep_mono cache acc id x h)

lemma cacheCheck_complete (ids : List String) (cache : List (String × StatusRecord)) :
    ∀ acc : List (String × StatusRecord) × List String, ∀ id ∈ ids,
      ((getEntry (ids.foldl (cacheCheckStep cache) acc).1 id).isSome ∨
        id ∈ (ids.foldl (cacheCheckStep cache) acc).2) := by
  induction ids with
  | nil => intro acc id hid; cases hid
  | cons id0 ids ih =>
      intro acc id hid
      rcases List.mem_cons.mp hid with rfl | hid
      · refine cacheCheck_mono ids cache _ id ?_
        unfold cacheCheckStep
        split
        · exact Or.inl (by rw [getEntry_setEntry_self]; rfl)
        · exact Or.inr (by simp)
      · exact ih _ id hid

lemma mergeFold_mono (l : List (String × StatusRecord)) :
    ∀ (m : List (String × StatusRecord)) (x : String), (getEntry m x).isSome →
      (getEntry (l.foldl mergeStep m) x).isSome := by
  induction l with
  | nil => intro m x h; exact h
  | cons p l ih =>
      intro m x h
      exact ih _ x (getEntry_setEntry_isSome _ _ _ _ h)

lemma mergeFold_keys (l : List (String × StatusRecord)) :
    ∀ (m : List (String × StatusRecord)), ∀ p ∈ l,
      (getEntry (l.foldl mergeStep m) p.1).isSome := by
  induction l with
  | nil => intro m p hp; cases hp
  | cons q l ih =>
      intro m p hp
      rcases List.mem_cons.mp hp with rfl | hp
      · exact mergeFold_mono l _ p.1
          (by unfold mergeStep; rw [getEntry_setEntry_self]; rfl)
      · exact ih _ p hp

lemma mergeFold_nodup (l : List (String × StatusRecord)) :
    ∀ m : List (String × StatusRecord), (m.map Prod.fst).Nodup →
      ((l.foldl mergeStep m).map Prod.fst).Nodup := by
  induction l with
  | nil => intro m h; exact h
  | cons p l ih => intro m h; exact ih _ (keys_nodup_setEntry _ _ _ h)

lemma cacheCheck_nodup (ids : List String) (cache : List (String × StatusRecord)) :
    ∀ acc : List (String × StatusRecord) × List String, (acc.1.map Prod.fst).Nodup →
      ((ids.foldl (cacheCheckStep cache) acc).1.map Prod.fst).Nodup := by
  induction ids with
  | nil => intro acc h; exact h
  | cons id ids ih =>
      intro acc h
      refine ih _ ?_
      unfold cacheCheckStep
      split
      · exact keys_nodup_setEntry _ _ _ h
      · exact h

lemma resolveFold_mono (oracle : ℕ → AttemptOutcome) (now : ℕ)
    (batches : List (List String)) :
    ∀ (acc : ResolveAcc) (x : String), (getEntry acc.results x).isSome →
      (getEntry ((batches.foldl (resolveStep oracle now) acc)).results x).isSome := by
  induction batches with
  | nil => intro acc x h; exact h
  | cons b bs ih =>
      intro acc x h
      exact ih _ x (mergeFold_mono _ _ x h)

lemma resolveFold_complete (oracle : ℕ → AttemptOutcome) (now : ℕ)
    (batches : List (List String)) :
    ∀ (acc : ResolveAcc) (b : List String), b ∈ batches → ∀ id ∈ b,
      (getEntry ((batches.foldl (resolveStep oracle now) acc)).results id).isSome := by
  induction batches with
  | nil => intro acc b hb; cases hb
  | cons b0 bs ih =>
      intro acc b hb id hid
      rcases List.mem_cons.mp hb with rfl | hb
      · refine resolveFold_mono oracle now bs _ id ?_
        have h1 := processBatch_complete oracle now b acc.state acc.idx id hid
        rcases exists_of_getEntry_isSome _ _ h1 with ⟨p, hp, hpe⟩
        have h2 := mergeFold_keys _ acc.results p hp
        rw [hpe] at h2
        exact h2
      · exact ih _ b hb id hid

lemma resolveFold_nodup (oracle : ℕ → AttemptOutcome) (now : ℕ)
    (batches : List (List String)) :
    ∀ acc : ResolveAcc, (acc.results.map Prod.fst).Nodup →
      (((batches.foldl (resolveStep oracle now) acc)).results.map Prod.fst).Nodup := by
  induction batches with
  | nil => intro acc h; exact h
  | cons b bs ih => intro acc h; exact ih _ (mergeFold_nodup _ _ h)

lemma chunkAux_covers :
    ∀ (fuel : ℕ) (l : List String), l.length ≤ fuel →
      ∀ x ∈ l, ∃ b ∈ chunkAux fuel l, x ∈ b := by
  intro fuel
  induction fuel with
  | zero =>
      intro l h x hx
      rw [Nat.le_zero, List.length_eq_zero] at h
      subst h
      cases hx
  | succ fuel ih =>
      intro l h x hx
      cases l with
      | nil => cases hx
      | cons a l2 =>
          have hx2 : x ∈ (a :: l2).take BATCH_SIZE ++ (a :: l2).drop BATCH_SIZE := by
            rw [List.take_append_drop]
            exact hx
          rcases List.mem_append.mp hx2 with hx2 | hx2
          · exact ⟨(a :: l2).take BATCH_SIZE, by simp [chunkAux], hx2⟩
          · have hlen : ((a :: l2).drop BATCH_SIZE).length ≤ fuel := by
              rw [List.length_drop]
              simp only [List.length_cons] at h ⊢
              simp only [BATCH_SIZE]
              omega
            rcases ih _ hlen x hx2 with ⟨b, hb, hxb⟩
            exact ⟨b, by simp [chunkAux]; exact Or.inr hb, hxb⟩

lemma cacheCheck_hit_snd (ids : List String) (cache : List (String × StatusRecord)) :
    ∀ acc : List (String × StatusRecord) × List String,
      (∀ id ∈ ids, (getEntry cache id).isSome) →
      (ids.foldl (cacheCheckStep cache) acc).2 = acc.2 := by
  induction ids with
  | nil => intro acc _; rfl
  | cons id0 ids ih =>
      intro acc h
      have h0 := h id0 (by simp)
      have hstep : (cacheCheckStep cache acc id0).2 = acc.2 := by
        unfold cacheCheckStep
        cases hget : getEntry cache id0 with
        | none => rw [hget] at h0; cases h0
        | some v => rfl
      calc (List.foldl (cacheCheckStep cache) (cacheCheckStep cache acc id0) ids).2
          = (cacheCheckStep cache acc id0).2 :=
            ih _ (fun id hid => h id (List.mem_cons_of_mem _ hid))
        _ = acc.2 := hstep

lemma cacheCheck_agrees (ids : List String) (cache : List (String × StatusRecord)) :
    ∀ acc : List (String × StatusRecord) × List String,
      (∀ x, (getEntry acc.1 x).isSome → getEntry acc.1 x = getEntry cache x) →
      ∀ x, (getEntry (ids.foldl (cacheCheckStep cache) acc).1 x).isSome →
        getEntry (ids.foldl (cacheCheckStep cache) acc).1 x = getEntry cache x := by
  induction ids with
  | nil => intro acc h; exact h
  | cons id0 ids ih =>
      intro acc h
      refine ih _ ?_
      intro x hx
      unfold cacheCheckStep at hx ⊢
      cases hget : getEntry cache id0 with
      | none =>
          rw [hget] at hx
          exact h x hx
      | some v =>
          rw [hget] at hx
          have hx2 : (getEntry (setEntry acc.1 id0 v) x).isSome := hx
          by_cases hxid : x = id0
          · subst hxid
            show getEntry (setEntry acc.1 x v) x = getEntry cache x
            rw [getEntry_setEntry_self, hget]
          · rw [getEntry_setEntry_ne _ _ _ _ hxid] at hx2
            show getEntry (setEntry acc.1 id0 v) x = getEntry cache x
            rw [getEntry_setEntry_ne _ _ _ _ hxid]
            exact h x hx2

lemma fetchBaselineStatus_allcached (oracle : ℕ → AttemptOutcome) (now : ℕ)
    (ids : List String) (s : ClientState) (idx : ℕ)
    (h : ∀ id ∈ ids, (getEntry s.cache id).isSome) :
    ∃ m, fetchBaselineStatus oracle now ids s idx = (Except.ok m, s, idx) ∧
      ∀ id ∈ ids, getEntry m id = getEntry s.cache id := by
  have hsnd : (ids.foldl (cacheCheckStep s.cache) ([], [])).2 = ([] : List String) :=
    cacheCheck_hit_snd ids s.cache ([], []) h
  refine ⟨(ids.foldl (cacheCheckStep s.cache) ([], [])).1, ?_, ?_⟩
  · simp only [fetchBaselineStatus]
    rw [hsnd]
    rfl
  · intro id hid
    have hpres : (getEntry (ids.foldl (cacheCheckStep s.cache) ([], [])).1 id).isSome := by
      rcases cacheCheck_complete ids s.cache ([], []) id hid with hp | hp
      · exact hp
      · rw [hsnd] at hp; cases hp
    exact cacheCheck_agrees ids s.cache ([], [])
      (by intro x hx; simp [getEntry] at hx) id hpres

/-- Claim C3 (counterexample): the claim as stated — `fetchBaselineStatus`
returns a fully populated map regardless of how the authority behaves — is
false when the authority is entirely unreachable: with every attempt a
network error, the call for `{"grid"}` returns the aggregate
`apiUnreachable` error (the populated Unknown-filled map is computed but
discarded), not a map. -/
theorem fetchBaselineStatus_claim_counterexample :
    (fetchBaselineStatus (fun _ => AttemptOutcome.netError) 0 ["grid"]
        initialClientState 0).1 = Except.error ClientErr.apiUnreachable ∧
    ¬ ∃ m, (fetchBaselineStatus (fun _ => AttemptOutcome.netError) 0 ["grid"]
        initialClientState 0).1 = Except.ok m := by
  have h : (fetchBaselineStatus (fun _ => AttemptOutcome.netError) 0 ["grid"]
      initialClientState 0).1 = Except.error ClientErr.apiUnreachable := by decide
  refine ⟨h, ?_⟩
  rintro ⟨m, hm⟩
  rw [h] at hm
  exact Except.noConfusion hm

/-- Claim C3 (amended): whenever `fetchBaselineStatus` returns a map rather
than throwing (it throws pre-flight when the breaker denies, and after
processing when some batch degenerated entirely to Unknown while the breaker
holds recorded failures), the returned map contains a status record for
every requested identifier, with no omissions and no duplicate keys,
regardless of how the authority responded — quantified over every attempt
oracle, every prior client state and every requested id list. -/
theorem fetchBaselineStatus_complete (oracle : ℕ → AttemptOutcome) (now : ℕ)
    (featureIds : List String) (s : ClientState) (idx : ℕ)
    (m : List (String × StatusRecord))
    (h : (fetchBaselineStatus oracle now featureIds s idx).1 = Except.ok m) :
    (∀ id ∈ featureIds, (getEntry m id).isSome) ∧ (m.map Prod.fst).Nodup := by
  simp only [fetchBaselineStatus] at h
  by_cases hempty : (featureIds.foldl (cacheCheckStep s.cache) ([], [])).2.isEmpty
  · rw [if_pos hempty] at h
    have hm : (featureIds.foldl (cacheCheckStep s.cache) ([], [])).1 = m := by
      simpa using h
    subst hm
    constructor
    · intro id hid
      rcases cacheCheck_complete featureIds s.cache ([], []) id hid with hp | hp
      · exact hp
      · rw [List.isEmpty_iff] at hempty
        rw [hempty] at hp
        cases hp
    · exact cacheCheck_nodup featureIds s.cache ([], []) (by simp)
  · rw [if_neg hempty] at h
    by_cases hallow : (shouldAllowRequest now s.breaker).1 = false
    · rw [if_pos hallow] at h
      cases h
    · rw [if_neg hallow] at h
      by_cases hfail :
          ((chunkBatches (featureIds.foldl (cacheCheckStep s.cache) ([], [])).2).foldl
              (resolveStep oracle now)
              ⟨(featureIds.foldl (cacheCheckStep s.cache) ([], [])).1,
                { s with breaker := (shouldAllowRequest now s.breaker).2 }, idx,
                false⟩).hasAnyFailures ∧
            0 < ((chunkBatches (featureIds.foldl (cacheCheckStep s.cache) ([], [])).2).foldl
              (resolveStep oracle now)
              ⟨(featureIds.foldl (cacheCheckStep s.cache) ([], [])).1,
                { s with breaker := (shouldAllowRequest now s.breaker).2 }, idx,
                false⟩).state.breaker.failureCount
      · rw [if_pos hfail] at h
        cases h
      · rw [if_neg hfail] at h
        have hm :
            ((chunkBatches (featureIds.foldl (cacheCheckStep s.cache) ([], [])).2).foldl
              (resolveStep oracle now)
              ⟨(featureIds.foldl (cacheCheckStep s.cache) ([], [])).1,
                { s with breaker := (shouldAllowRequest now s.breaker).2 }, idx,
                false⟩).results = m := by
          simpa using h
        subst hm
        constructor
        · intro id hid
          rcases cacheCheck_complete featureIds s.cache ([], []) id hid with hp | hp
          · exact resolveFold_mono oracle now _ _ id hp
          · rcases chunkAux_covers _ _ le_rfl id hp with ⟨b, hb, hidb⟩
            exact resolveFold_complete oracle now _ _ b hb id hidb
        · exact resolveFold_nodup oracle now _ _
            (cacheCheck_nodup featureIds s.cache ([], []) (by simp))

/-- Witness for the amended C3: a successful authority answer for `grid`
produces the singleton map, which contains the requested id once. -/
theorem fetchBaselineStatus_complete_witness :
    (∀ id ∈ ["grid"],
      (getEntry [("grid", (⟨BStatus.widely, none, none⟩ : StatusRecord))] id).isSome) ∧
    (([("grid", (⟨BStatus.widely, none, none⟩ : StatusRecord))]).map Prod.fst).Nodup :=
  fetchBaselineStatus_complete
    (fun _ => AttemptOutcome.httpResponse 200
      (Body.json [⟨"grid", some ⟨"widely", none, none⟩⟩]))
    0 ["grid"] initialClientState 0
    [("grid", (⟨BStatus.widely, none, none⟩ : StatusRecord))] (by decide)

/-- Claim C9: when a batch request fails (retries exhausted, malformed
response, breaker open — any `fetchFeaturesBatch` error), `processBatch`
writes an Unknown record into the process-lifetime cache for every
identifier of the batch, and every later `fetchBaselineStatus` call for
those identifiers — under ANY authority behavior, i.e. even after the
authority recovers — is served from the cache as Unknown, consuming no
attempt and leaving the client state untouched. -/
theorem processBatch_failure_poisons_cache (oracle : ℕ → AttemptOutcome)
    (now : ℕ) (ids : List String) (s : ClientState) (idx : ℕ) (e : ClientErr)
    (herr : (fetchFeaturesBatch oracle now ids MAX_RETRIES idx s.breaker).1 =
      Except.error e) :
    (∀ id ∈ ids, getEntry (processBatch oracle now ids s idx).2.1.cache id =
      some unknownRecord) ∧
    (∀ (oracle2 : ℕ → AttemptOutcome) (now2 idx2 : ℕ) (ids2 : List String),
      (∀ id ∈ ids2, id ∈ ids) →
      ∃ m, fetchBaselineStatus oracle2 now2 ids2
            (processBatch oracle now ids s idx).2.1 idx2 =
          (Except.ok m, (processBatch oracle now ids s idx).2.1, idx2) ∧
        ∀ id ∈ ids2, getEntry m id = some unknownRecord) := by
  have hcache := processBatch_error_cache oracle now ids s idx e herr
  refine ⟨hcache, ?_⟩
  intro oracle2 now2 idx2 ids2 hsub
  have hall : ∀ id ∈ ids2,
      (getEntry (processBatch oracle now ids s idx).2.1.cache id).isSome := by
    intro id hid
    rw [hcache id (hsub id hid)]
    rfl
  rcases fetchBaselineStatus_allcached oracle2 now2 ids2 _ idx2 hall with ⟨m, hm, hv⟩
  exact ⟨m, hm, fun id hid => by rw [hv id hid, hcache id (hsub id hid)]⟩

/-- Witness for C9: after a batch for `grid` fails against an unreachable
authority, the cache holds Unknown for `grid`, and a later call — now with
the authority answering Widely — still returns Unknown from the cache. -/
theorem processBatch_failure_poisons_cache_witness :
    ∃ m, fetchBaselineStatus
          (fun _ => AttemptOutcome.httpResponse 200
            (Body.json [⟨"grid", some ⟨"widely", none, none⟩⟩])) 50000 ["grid"]
          (processBatch (fun _ => AttemptOutcome.netError) 0 ["grid"]
            initialClientState 0).2.1 7 =
        (Except.ok m,
          (processBatch (fun _ => AttemptOutcome.netError) 0 ["grid"]
            initialClientState 0).2.1, 7) ∧
      ∀ id ∈ ["grid"], getEntry m id = some unknownRecord :=
  (processBatch_failure_poisons_cache (fun _ => AttemptOutcome.netError) 0 ["grid"]
      initialClientState 0 ClientErr.network (by decide)).2
    (fun _ => AttemptOutcome.httpResponse 200
      (Body.json [⟨"grid", some ⟨"widely", none, none⟩⟩])) 50000 7 ["grid"]
    (fun id hid => hid)

/-- The pure diff assembly of `main` in `baseline-diff.mjs`: build both
feature maps and compute the four result fields. -/
def computeDiff (baseScore headScore : ℚ) (baseItems headItems : List DiffItem) :
    DiffResult :=
  let baseMap := buildFeatureMap baseItems
  let headMap := buildFeatureMap headItems
  { scoreDelta := roundTo3 (headScore - baseScore)
    newLimited := findNewLimited baseMap headMap
    downgrades := findDowngrades baseMap headMap
    topContributors := findTopContributors baseMap headMap }

/-- Claim C8: diffing base `[{grid: widely}, {flexbox: widely}]` at score
0.90 against head `[{grid: widely}, {flexbox: newly}]` at score 0.85 (all
weights defaulted) yields `scoreDelta = -0.05`, `downgrades` exactly
`[{flexbox, widely, newly}]` and `newLimited = []`. -/
theorem computeDiff_scenario :
    (computeDiff 0.90 0.85
        [⟨"grid", "widely", none⟩, ⟨"flexbox", "widely", none⟩]
        [⟨"grid", "widely", none⟩, ⟨"flexbox", "newly", none⟩]).scoreDelta
        = (-0.05 : ℚ) ∧
    (computeDiff 0.90 0.85
        [⟨"grid", "widely", none⟩, ⟨"flexbox", "widely", none⟩]
        [⟨"grid", "widely", none⟩, ⟨"flexbox", "newly", none⟩]).downgrades
        = [⟨"flexbox", "widely", "newly"⟩] ∧
    (computeDiff 0.90 0.85
        [⟨"grid", "widely", none⟩, ⟨"flexbox", "widely", none⟩]
        [⟨"grid", "widely", none⟩, ⟨"flexbox", "newly", none⟩]).newLimited
        = [] := by
  refine ⟨?_, by decide, by decide⟩
  show roundTo3 ((0.85 : ℚ) - 0.90) = -0.05
  have h1 : ((0.85 : ℚ) - 0.90) * 1000 = -50 := by norm_num
  have h2 : jsRound (-50 : ℚ) = -50 := by
    rw [jsRound, Int.floor_eq_iff]
    constructor <;> norm_num
  rw [roundTo3, h1, h2]
  norm_num
